import Mathlib

/-!
Verification of the bpfman-operator link-reconciliation core.

This file gives a shallow embedding of the Go source of the repository's
reconciliation engine and proves the specification claims about it.

Conventions of the embedding:
* Go slices are `List`; a field whose Go type is a slice and whose nil-ness
  is observable (via `reflect.DeepEqual`) is `Option (List _)` with `none`
  standing for the nil slice.
* Go `*uint32` handles are `Option Nat`.
* Go maps used only for membership (`map[string]bool`, `map[int]bool`) are
  modelled by the list of inserted keys.
* External collaborators (the bpfman RPC service, container enumeration,
  interface discovery, UUID generation) are parameters of the functions
  that consult them, so every definition is executable.
-/

namespace Bpfman

/-- The `LinkStatus` enum of an AttachRecord (spec §3):
`NotAttached → AttachSuccess | AttachError | Detached`.  The source constant
`ApAttachNotAttached` is `notAttached`. -/
inductive LinkStatus
  | notAttached
  | attachSuccess
  | attachError
  | detached
deriving DecidableEq, Repr

/-- Aggregate per-program attach status (`ProgAttachSuccess` / `ProgAttachError`
in the source). -/
inductive ProgramLinkStatus
  | progAttachSuccess
  | progAttachError
deriving DecidableEq, Repr

/-- One XDP attach record (`ClXdpAttachInfoState` in the source, with the
embedded `AttachInfoStateCommon` fields flattened, as Go field promotion
does).  `NetnsPath` is a Go `string` (absent = `""`); `ProceedOn` is a Go
slice, so nil and empty are distinct values. -/
structure ClXdpAttachInfoState where
  ShouldAttach : Bool
  UUID : String
  LinkId : Option Nat
  LinkStatus : LinkStatus
  InterfaceName : String
  NetnsPath : String
  Priority : Int
  ProceedOn : Option (List String)
deriving DecidableEq, Repr

namespace ClXdpAttachInfoState

/-- Field update used by the reset / set-back-true steps of `updateLinks`. -/
def setShouldAttach (a : ClXdpAttachInfoState) (b : Bool) : ClXdpAttachInfoState :=
  { a with ShouldAttach := b }

end ClXdpAttachInfoState

/-- The comparison performed inside `findLink` (part_004:224-226): the two
records are the same attach point iff `InterfaceName`, `Priority`,
`NetnsPath` (`reflect.DeepEqual` on strings = string equality) and
`ProceedOn` (`reflect.DeepEqual` on slices: both nil, or both non-nil and
elementwise equal) agree. -/
def xdpLinksMatch (a b : ClXdpAttachInfoState) : Bool :=
  a.InterfaceName == b.InterfaceName && a.Priority == b.Priority &&
    a.NetnsPath == b.NetnsPath && a.ProceedOn == b.ProceedOn

/-- The body of the `switch` inside the loop of `xdpProceedOnToInt`
(part_004:131-146): append the integer for a recognised name, leave `out`
unchanged otherwise. -/
def xdpProceedOnLoopBody (out : List Int) (p : String) : List Int :=
  match p with
  | "Aborted" => out ++ [0]
  | "Drop" => out ++ [1]
  | "Pass" => out ++ [2]
  | "TX" => out ++ [3]
  | "ReDirect" => out ++ [4]
  | "DispatcherReturn" => out ++ [31]
  | _ => out

/-- Function `xdpProceedOnToInt` (part_004:128-149): translate the CRD proceed-on
names into the bpfman integer encoding, silently skipping anything that is
not one of the six exact spellings.  The Go loop appends to `out`, which the
`foldl` mirrors. -/
def xdpProceedOnToInt (proceedOn : List String) : List Int :=
  proceedOn.foldl xdpProceedOnLoopBody []

/-- The per-element translation table of `xdpProceedOnToInt`, as a partial
map (used to state what the loop computes). -/
def xdpProceedOnValueToInt : String → Option Int
  | "Aborted" => some 0
  | "Drop" => some 1
  | "Pass" => some 2
  | "TX" => some 3
  | "ReDirect" => some 4
  | "DispatcherReturn" => some 31
  | _ => none

/-- Function `findLink` (part_004:220-231): index of the first stored link whose
identity fields match the candidate, `none` when no stored link matches. -/
def findLink : List ClXdpAttachInfoState → ClXdpAttachInfoState → Option Nat
  | [], _ => none
  | a :: rest, link =>
    if xdpLinksMatch a link then some 0 else (findLink rest link).map (· + 1)

/-- In-place `Links[i].ShouldAttach = b` of the Go source. -/
def setShouldAttachAt : List ClXdpAttachInfoState → Nat → Bool → List ClXdpAttachInfoState
  | [], _, _ => []
  | a :: rest, 0, b => a.setShouldAttach b :: rest
  | a :: rest, i + 1, b => a :: setShouldAttachAt rest i b

/-- Body of the inner loop of `updateLinks` (part_004:199-208): if an
identity-equal stored link exists, set its `ShouldAttach` back to true,
otherwise append the freshly expanded link. -/
def updateLinksStep (links : List ClXdpAttachInfoState) (link : ClXdpAttachInfoState) :
    List ClXdpAttachInfoState :=
  match findLink links link with
  | some i => setShouldAttachAt links i true
  | none => links ++ [link]

/-- Function `updateLinks` (part_004:178-218).  The expansion results
(`getExpectedLinks` per spec attach-info entry) are passed in as
`expectedLists`, one list per entry of `r.currentProgram.XDP.Links`; the
Go loop over those entries folding the per-entry expected links is the
double fold.  Step one sets `ShouldAttach := false` on every stored link;
when the program is being deleted nothing else happens. -/
def updateLinks (links : List ClXdpAttachInfoState)
    (expectedLists : List (List ClXdpAttachInfoState)) (isBeingDeleted : Bool) :
    List ClXdpAttachInfoState :=
  let reset := links.map (·.setShouldAttach false)
  if isBeingDeleted then reset
  else expectedLists.foldl (fun acc expected => expected.foldl updateLinksStep acc) reset

/-- One RPC call to the external bpfman service, as observed by the engine
(spec §6): attach of a link, or detach of a link handle. -/
inductive RpcCall
  | attach (link : ClXdpAttachInfoState)
  | detach (linkId : Nat)
deriving DecidableEq, Repr

/-- The external load/attach/detach service, as a deterministic oracle:
`attach` yields a link handle or an error message, `detach` yields unit or
an error message (spec §6). -/
structure Rpc where
  attach : ClXdpAttachInfoState → Except String Nat
  detach : Nat → Except String Unit

/-- Outcome of reconciling one link: the updated record, whether the Go
code returned `remove = true`, the error (if any), and the RPC calls
issued. -/
structure LinkReconcileResult where
  link : ClXdpAttachInfoState
  remove : Bool
  err : Option String
  calls : List RpcCall
deriving DecidableEq, Repr

/-- Modelled from the spec: `reconcileBpfLink` is not under src/ (only its
call site in `processLinks`, part_004:247, is).  Spec §4.3 steps 3-5 and
§3: a link with `ShouldAttach` and no `LinkId` is attached (on success
`LinkId` is set and `LinkStatus = AttachSuccess`, on failure
`LinkStatus = AttachError` and the error is recorded); a link without
`ShouldAttach` but with a `LinkId` is detached (on success the `LinkId` is
cleared and the record is marked for removal, on failure
`LinkStatus = AttachError` and the record is kept); a record with
`ShouldAttach == false` and `LinkId == nil` is eligible for removal; an
already-attached wanted link is left untouched. -/
def reconcileBpfLink (rpc : Rpc) (l : ClXdpAttachInfoState) : LinkReconcileResult :=
  if l.ShouldAttach then
    match l.LinkId with
    | none =>
      match rpc.attach l with
      | .ok id =>
        { link := { l with LinkId := some id, LinkStatus := .attachSuccess },
          remove := false, err := none, calls := [.attach l] }
      | .error e =>
        { link := { l with LinkStatus := .attachError },
          remove := false, err := some e, calls := [.attach l] }
    | some _ => { link := l, remove := false, err := none, calls := [] }
  else
    match l.LinkId with
    | some id =>
      match rpc.detach id with
      | .ok _ =>
        { link := { l with LinkId := none }, remove := true, err := none,
          calls := [.detach id] }
      | .error e =>
        { link := { l with LinkStatus := .attachError },
          remove := false, err := some e, calls := [.detach id] }
    | none => { link := l, remove := true, err := none, calls := [] }

/-- Modelled from the spec: `isAttachSuccess` is not under src/ (only its
call site in `updateProgramAttachStatus`, part_004:274, is).  Spec §3:
"aggregate `ProgramLinkStatus` is `Success` iff every AttachRecord
satisfies `ShouldAttach == (LinkId != nil)`", so the per-record predicate
is that equality. -/
def isAttachSuccess (shouldAttach : Bool) (linkId : Option Nat) : Bool :=
  shouldAttach == linkId.isSome

/-- Function `updateProgramAttachStatus` (part_004:272-280): scan the links; the
first one failing the per-record check makes the aggregate
`ProgAttachError`, otherwise it is `ProgAttachSuccess`. -/
def updateProgramAttachStatus : List ClXdpAttachInfoState → ProgramLinkStatus
  | [] => .progAttachSuccess
  | l :: rest =>
    if !isAttachSuccess l.ShouldAttach l.LinkId then .progAttachError
    else updateProgramAttachStatus rest

/-- Result of one `processLinks` pass: the updated collection (after
removals), the recomputed aggregate status, the last per-link error, and
the RPC calls issued during the pass. -/
structure ProcessResult where
  links : List ClXdpAttachInfoState
  status : ProgramLinkStatus
  lastErr : Option String
  calls : List RpcCall
deriving DecidableEq, Repr

/-- Function `processLinks` (part_004:236-270): reconcile every link in order,
remembering the last error but never aborting; collect the indices marked
for removal (`linksToRemove`) and drop them (`removeLinks`,
part_004:283-291, modelled by filtering on the per-index remove flag,
which is equivalent because indices are unique); finally recompute the
aggregate status. -/
def processLinks (rpc : Rpc) (links : List ClXdpAttachInfoState) : ProcessResult :=
  let scanned := links.foldl
    (fun (st : List (ClXdpAttachInfoState × Bool) × Option String × List RpcCall) l =>
      let r := reconcileBpfLink rpc l
      (st.1 ++ [(r.link, r.remove)],
       (match r.err with | some e => some e | none => st.2.1),
       st.2.2 ++ r.calls))
    ([], none, [])
  let remaining := (scanned.1.filter (fun p => !p.2)).map Prod.fst
  { links := remaining, status := updateProgramAttachStatus remaining,
    lastErr := scanned.2.1, calls := scanned.2.2 }

/-- One reconcile pass over the link collection of a PerNodeRecord:
`updateLinks` (diff against the freshly expanded expected set) followed by
`processLinks` (drive the RPC service through the diff), as called by the
generic program reconciler for a program that is not being deleted. -/
def reconcilePass (rpc : Rpc) (links : List ClXdpAttachInfoState)
    (expectedLists : List (List ClXdpAttachInfoState)) : ProcessResult :=
  processLinks rpc (updateLinks links expectedLists false)

/-- One container found on the node by the container-enumeration
collaborator (`containerInfo` entries of part_004/part_006). -/
structure ContainerInfo where
  podName : String
  containerName : String
  pid : Int
deriving DecidableEq, Repr

/-- A bare XDP attach record as built by the struct literals of
`getExpectedLinks` (part_004:325-374): `ShouldAttach = true`, no link id,
`ApAttachNotAttached`, a host-namespace path defaulting to the empty
string, and a UUID filled in afterwards. -/
def mkXdpLink (iface netns : String) (priority : Int) (proceedOn : Option (List String)) :
    ClXdpAttachInfoState :=
  { ShouldAttach := true, UUID := "", LinkId := none, LinkStatus := .notAttached,
    InterfaceName := iface, NetnsPath := netns, Priority := priority,
    ProceedOn := proceedOn }

/-- Function `getExpectedLinks` (part_004:295-381), the XDP expansion.  External
collaborators are parameters: `interfaces` is the `getInterfaces` result,
`containerInfo` the `GetContainers` result (its error path aborts the
expansion and is outside the claims), `getOnePerPod` is
`GetOneContainerPerPod`, `netnsPathFromPID` maps a container pid to its
network-namespace path, `getNetnsMap` is `getInterfaceNetNsList` (a Go map
from interface name to namespace paths; indexing a missing key yields the
nil slice).  `uuid.New()` is modelled by numbering the produced records in
production order with `uuidGen`. -/
def getExpectedLinks (interfaces : List String) (hasNetnsSelector : Bool)
    (containerInfo : Option (List ContainerInfo))
    (getOnePerPod : List ContainerInfo → List ContainerInfo)
    (netnsPathFromPID : Int → String)
    (getNetnsMap : String → List (String × List String))
    (priority : Int) (proceedOn : Option (List String))
    (uuidGen : Nat → String) : List ClXdpAttachInfoState :=
  let base :=
    if hasNetnsSelector then
      match containerInfo with
      | some cs =>
        (getOnePerPod cs).flatMap (fun c =>
          interfaces.map (fun iface =>
            mkXdpLink iface (netnsPathFromPID c.pid) priority proceedOn))
      | none => []
    else
      interfaces.flatMap (fun iface =>
        let m := getNetnsMap iface
        if m.isEmpty then [mkXdpLink iface ("") priority proceedOn]
        else
          (((m.find? (fun kv => kv.1 == iface)).map Prod.snd).getD []).map
            (fun netns => mkXdpLink iface netns priority proceedOn))
  base.enum.map (fun p => { p.2 with UUID := uuidGen p.1 })

/-- Annotation key naming the uprobe target (`internal.UprobeProgramTarget`;
the concrete constant value is not under src/, only its distinctness from
the other keys matters). -/
def UprobeProgramTarget : String := "bpfman.io.uprobeprogram/target"

/-- Annotation key marking the "no containers on node" sentinel record
(`internal.UprobeNoContainersOnNode`). -/
def UprobeNoContainersOnNode : String := "bpfman.io.uprobeprogram/no-containers-on-node"

/-- Annotation key carrying the container pid
(`internal.UprobeContainerPid`). -/
def UprobeContainerPid : String := "bpfman.io.uprobeprogram/containerpid"

/-- A per-node expected record as produced by the uprobe expansion: the
attach-point string it is named after and its annotations. -/
structure BpfProgram where
  attachPoint : String
  annotations : List (String × String)
deriving DecidableEq, Repr

/-- Modelled from the spec: `createBpfProgram` is not under src/ (only its
call sites in `getExpectedBpfPrograms`, part_006:174/195/208, are).  Spec
§4.2: expansion produces one expected record per attach point; the record
carries the attach-point name and the given annotations. -/
def createBpfProgram (attachPoint : String) (annotations : List (String × String)) :
    BpfProgram :=
  { attachPoint := attachPoint, annotations := annotations }

/-- Function `getExpectedBpfPrograms` (part_006:144-217), the uprobe expansion.
`sanitize` (not under src/) and the `GetContainers` result are parameters;
the `GetContainers` error path aborts the expansion and is outside the
claims. -/
def getExpectedBpfPrograms (sanitize : String → String) (target functionName : String)
    (hasContainerSelector : Bool) (containerInfo : Option (List ContainerInfo)) :
    List BpfProgram :=
  let sanitizedUprobe := sanitize target ++ "-" ++ sanitize functionName
  let sentinel := createBpfProgram (sanitizedUprobe ++ "-no-containers-on-node")
    [(UprobeProgramTarget, target), (UprobeNoContainersOnNode, "true")]
  if hasContainerSelector then
    match containerInfo with
    | none => [sentinel]
    | some cs =>
      if cs.isEmpty then [sentinel]
      else
        cs.map (fun c =>
          createBpfProgram (sanitizedUprobe ++ "-" ++ c.podName ++ "-" ++ c.containerName)
            [(UprobeProgramTarget, target), (UprobeContainerPid, toString c.pid)])
  else [createBpfProgram sanitizedUprobe [(UprobeProgramTarget, target)]]

/-- One declared sub-program of a composite `BpfApplication` spec
(`BpfApplicationProgram` of application-program.go); the kprobe/uprobe
retprobe variants share their payload with the plain variants, as in the
source's `case` arms. -/
inductive AppProgram
  | fentry (functionName bpfFunctionName : String)
  | fexit (functionName bpfFunctionName : String)
  | kprobe (isRetprobe : Bool) (functionName bpfFunctionName : String)
  | uprobe (isRetprobe : Bool) (functionName bpfFunctionName : String)
  | tracepoint (bpfFunctionName : String)
  | tc (direction bpfFunctionName : String)
  | tcx (direction bpfFunctionName : String)
  | xdp (bpfFunctionName : String)
deriving DecidableEq, Repr

/-- The Go expression `strings.ToLower(string(p.Type))` of application-program.go.  The
concrete `ProgType` constant values are not under src/; the lowercased
kind names are used. -/
def progTypeString : AppProgram → String
  | .fentry _ _ => "fentry"
  | .fexit _ _ => "fexit"
  | .kprobe isRet _ _ => if isRet then ("kretprobe") else ("kprobe")
  | .uprobe isRet _ _ => if isRet then ("uretprobe") else ("uprobe")
  | .tracepoint _ => "tracepoint"
  | .tc _ _ => "tc"
  | .tcx _ _ => "tcx"
  | .xdp _ => "xdp"

/-- The stable per-sub-program identity string (`appProgramId` of
application-program.go lines 96/119/143/167/190/219/248/277): kind plus
target fields, not the object name.  `sanitize` is not under src/ and is a
parameter. -/
def appProgramIdOf (sanitize : String → String) : AppProgram → String
  | .fentry fn bpfFn => "fentry" ++ "-" ++ sanitize fn ++ "-" ++ bpfFn
  | .fexit fn bpfFn => "fexit" ++ "-" ++ sanitize fn ++ "-" ++ bpfFn
  | p@(.kprobe _ fn bpfFn) => progTypeString p ++ "-" ++ sanitize fn ++ "-" ++ bpfFn
  | p@(.uprobe _ fn bpfFn) => progTypeString p ++ "-" ++ sanitize fn ++ "-" ++ bpfFn
  | .tracepoint bpfFn => "tracepoint" ++ "-" ++ bpfFn
  | .tc dir bpfFn => "tc" ++ "-" ++ dir ++ "-" ++ bpfFn
  | .tcx dir bpfFn => "tcx" ++ "-" ++ dir ++ "-" ++ bpfFn
  | .xdp bpfFn => "xdp" ++ "-" ++ bpfFn

/-- The TC/TCX/XDP arms call `getInterfaces` before building the id and
`continue` (skipping the sub-program entirely) when it fails. -/
def needsInterfaces : AppProgram → Bool
  | .tc _ _ => true
  | .tcx _ _ => true
  | .xdp _ => true
  | _ => false

/-- The `appProgramMap` built by `BpfApplicationReconciler.Reconcile` for
one application: ids of every sub-program whose arm ran (`ifaceOk` is the
success of `getInterfaces` for the interface-bearing kinds; a failing one
is skipped by `continue`).  Go's `map[string]bool` with only `true`
insertions is modelled by the list of inserted keys. -/
def buildAppProgramMap (sanitize : String → String) (ifaceOk : AppProgram → Bool)
    (ps : List AppProgram) : List String :=
  ps.foldl
    (fun m p =>
      if needsInterfaces p && !ifaceOk p then m else m ++ [appProgramIdOf sanitize p])
    []

/-- A previously created per-node sub-record: its object name and its
`AppProgramId` label. -/
structure OwnedBpfProgram where
  name : String
  appProgramId : String
deriving DecidableEq, Repr

/-- The `bpfDeletedPrograms` selection of application-program.go lines
325-331: every owned record whose `AppProgramId` label is not a key of
`appProgramMap`. -/
def selectDeletedPrograms (ids : List String) (owned : List OwnedBpfProgram) :
    List OwnedBpfProgram :=
  owned.foldl
    (fun acc bp => if ids.contains bp.appProgramId then acc else acc ++ [bp]) []

/-- Modelled from the spec: `unLoadAndDeleteBpfProgramsList` is not under
src/ (only its call site at application-program.go:333 is).  Spec §4.4:
the engine "deletes any previously-created sub-record whose identity no
longer appears in the current spec"; the function deletes exactly the
records on the list it is given, so the surviving records are the owned
ones not selected for deletion. -/
def applyDeletions (owned deleted : List OwnedBpfProgram) : List OwnedBpfProgram :=
  owned.filter (fun bp => !deleted.contains bp)

/-- The completed-reconcile cleanup step of
`BpfApplicationReconciler.Reconcile` (lines 316-339): build the id map
from the spec, select the stale sub-records, delete them.  Returns
(deleted, kept). -/
def reconcileApplicationCleanup (sanitize : String → String) (ifaceOk : AppProgram → Bool)
    (ps : List AppProgram) (owned : List OwnedBpfProgram) :
    List OwnedBpfProgram × List OwnedBpfProgram :=
  let ids := buildAppProgramMap sanitize ifaceOk ps
  let deleted := selectDeletedPrograms ids owned
  (deleted, applyDeletions owned deleted)

/-- A status condition (type + message; the timestamp plays no role in the
claims). -/
structure Condition where
  condType : String
  message : String
deriving DecidableEq, Repr

/-- The `ProgramReconcileSuccess` condition type (concrete string values of
the condition types are not under src/; only their distinctness
matters). -/
def ProgramReconcileSuccess : String := "ReconcileSuccess"

/-- The `ProgramReconcileError` condition type. -/
def ProgramReconcileError : String := "ReconcileError"

/-- The `ProgramDeleteError` condition type. -/
def ProgramDeleteError : String := "DeleteError"

/-- Modelled from the spec: `updateCondition` is not under src/ (only its
call site in `FentryProgramReconciler.updateStatus`, part_008:115, and
the test exercising it, part_007, are).  Spec §4.4: "Exactly one terminal
condition must be present after each reconcile; if more than one is found
(a historical inconsistency), collapse to the most recent."  The condition
computed by the current reconcile is the most recent one, so the stored
list becomes exactly that one condition. -/
def updateCondition (conds : List Condition) (c : Condition) : List Condition :=
  let _ := conds
  [c]

/-- Among identity-equal entries, only the first can carry
`ShouldAttach = true`: `findLink` always picks the first match, so the
fold never sets a later duplicate true. -/
@[reducible] def NoDupTrue (acc : List ClXdpAttachInfoState) : Prop :=
  ∀ (i j : Nat) (ai aj : ClXdpAttachInfoState), i < j →
    acc[i]? = some ai → acc[j]? = some aj →
    xdpLinksMatch ai aj = true → aj.ShouldAttach = false

/-!
The theorems.  First the helper lemmas about the embedded definitions,
then one theorem per claim (with its witness or counterexample).
-/

@[simp] theorem setShouldAttach_ShouldAttach (a : ClXdpAttachInfoState) (b : Bool) :
    (a.setShouldAttach b).ShouldAttach = b := rfl

@[simp] theorem setShouldAttach_setShouldAttach (a : ClXdpAttachInfoState) (b c : Bool) :
    (a.setShouldAttach b).setShouldAttach c = a.setShouldAttach c := rfl

@[simp] theorem setShouldAttach_self (a : ClXdpAttachInfoState) :
    a.setShouldAttach a.ShouldAttach = a := rfl

theorem setShouldAttach_eq_self (a : ClXdpAttachInfoState) (b : Bool)
    (h : a.ShouldAttach = b) : a.setShouldAttach b = a := by
  rw [← h]; exact setShouldAttach_self a

@[simp] theorem xdpLinksMatch_setShouldAttach_left (a b : ClXdpAttachInfoState) (c : Bool) :
    xdpLinksMatch (a.setShouldAttach c) b = xdpLinksMatch a b := rfl

@[simp] theorem xdpLinksMatch_setShouldAttach_right (a b : ClXdpAttachInfoState) (c : Bool) :
    xdpLinksMatch a (b.setShouldAttach c) = xdpLinksMatch a b := rfl

/-- The comparison of `findLink` holds exactly when the four identity fields
agree (with `ProceedOn` compared as a Go slice, nil distinct from empty). -/
theorem xdpLinksMatch_eq_true_iff (a b : ClXdpAttachInfoState) :
    xdpLinksMatch a b = true ↔
      a.InterfaceName = b.InterfaceName ∧ a.Priority = b.Priority ∧
        a.NetnsPath = b.NetnsPath ∧ a.ProceedOn = b.ProceedOn := by
  simp [xdpLinksMatch, Bool.and_eq_true, beq_iff_eq, and_assoc]

theorem xdpLinksMatch_comm (a b : ClXdpAttachInfoState) :
    xdpLinksMatch a b = xdpLinksMatch b a := by
  rw [Bool.eq_iff_iff, xdpLinksMatch_eq_true_iff, xdpLinksMatch_eq_true_iff]
  constructor <;>
    · rintro ⟨h₁, h₂, h₃, h₄⟩
      exact ⟨h₁.symm, h₂.symm, h₃.symm, h₄.symm⟩

@[simp] theorem xdpLinksMatch_refl (a : ClXdpAttachInfoState) :
    xdpLinksMatch a a = true := by
  rw [xdpLinksMatch_eq_true_iff]; exact ⟨rfl, rfl, rfl, rfl⟩

theorem xdpLinksMatch_trans {a b c : ClXdpAttachInfoState}
    (hab : xdpLinksMatch a b = true) (hbc : xdpLinksMatch b c = true) :
    xdpLinksMatch a c = true := by
  rw [xdpLinksMatch_eq_true_iff] at hab hbc ⊢
  obtain ⟨h₁, h₂, h₃, h₄⟩ := hab
  obtain ⟨g₁, g₂, g₃, g₄⟩ := hbc
  exact ⟨h₁.trans g₁, h₂.trans g₂, h₃.trans g₃, h₄.trans g₄⟩

theorem findLink_eq_none_iff (links : List ClXdpAttachInfoState)
    (l : ClXdpAttachInfoState) :
    findLink links l = none ↔ ∀ a ∈ links, xdpLinksMatch a l = false := by
  induction links with
  | nil => simp [findLink]
  | cons a rest ih =>
    by_cases h : xdpLinksMatch a l = true
    · simp [findLink, h]
    · rw [Bool.not_eq_true] at h
      simp [findLink, h, Option.map_eq_none, ih]

theorem findLink_some_lt {links : List ClXdpAttachInfoState}
    {l : ClXdpAttachInfoState} {i : Nat} (h : findLink links l = some i) :
    i < links.length := by
  induction links generalizing i with
  | nil => simp [findLink] at h
  | cons a rest ih =>
    by_cases hm : xdpLinksMatch a l = true
    · simp [findLink, hm] at h
      simp only [List.length_cons]
      omega
    · rw [Bool.not_eq_true] at hm
      simp [findLink, hm] at h
      obtain ⟨j, hj, rfl⟩ := h
      have := ih hj
      simp only [List.length_cons]
      omega

theorem findLink_some_match {links : List ClXdpAttachInfoState}
    {l : ClXdpAttachInfoState} {i : Nat} (h : findLink links l = some i) :
    ∃ a, links[i]? = some a ∧ xdpLinksMatch a l = true := by
  induction links generalizing i with
  | nil => simp [findLink] at h
  | cons a rest ih =>
    by_cases hm : xdpLinksMatch a l = true
    · simp [findLink, hm] at h
      exact ⟨a, by simp [← h], hm⟩
    · rw [Bool.not_eq_true] at hm
      simp [findLink, hm] at h
      obtain ⟨j, hj, rfl⟩ := h
      obtain ⟨x, hx, hxm⟩ := ih hj
      exact ⟨x, by simpa using hx, hxm⟩

theorem findLink_some_first {links : List ClXdpAttachInfoState}
    {l : ClXdpAttachInfoState} {i : Nat} (h : findLink links l = some i) :
    ∀ j a, j < i → links[j]? = some a → xdpLinksMatch a l = false := by
  induction links generalizing i with
  | nil => simp [findLink] at h
  | cons a rest ih =>
    by_cases hm : xdpLinksMatch a l = true
    · simp [findLink, hm] at h
      intro j x hj _
      omega
    · rw [Bool.not_eq_true] at hm
      simp [findLink, hm] at h
      obtain ⟨k, hk, rfl⟩ := h
      intro j x hj hx
      cases j with
      | zero => simp at hx; simpa [← hx] using hm
      | succ j =>
        simp at hx
        exact ih hk j x (by omega) hx

theorem findLink_isSome_of_match {links : List ClXdpAttachInfoState}
    {l a : ClXdpAttachInfoState} (ha : a ∈ links)
    (hm : xdpLinksMatch a l = true) : findLink links l ≠ none := by
  rw [Ne, findLink_eq_none_iff]
  intro hall
  have := hall a ha
  rw [hm] at this
  simp at this

@[simp] theorem length_setShouldAttachAt (ls : List ClXdpAttachInfoState) (i : Nat) (b : Bool) :
    (setShouldAttachAt ls i b).length = ls.length := by
  induction ls generalizing i with
  | nil => rfl
  | cons a rest ih =>
    cases i with
    | zero => rfl
    | succ i => simp [setShouldAttachAt, ih]

theorem getElem?_setShouldAttachAt_self (ls : List ClXdpAttachInfoState) (i : Nat) (b : Bool) :
    (setShouldAttachAt ls i b)[i]? = (ls[i]?).map (·.setShouldAttach b) := by
  induction ls generalizing i with
  | nil => simp [setShouldAttachAt]
  | cons a rest ih =>
    cases i with
    | zero => simp [setShouldAttachAt]
    | succ i => simpa [setShouldAttachAt] using ih i

theorem getElem?_setShouldAttachAt_ne (ls : List ClXdpAttachInfoState) (i : Nat) (b : Bool)
    (j : Nat) (h : j ≠ i) : (setShouldAttachAt ls i b)[j]? = ls[j]? := by
  induction ls generalizing i j with
  | nil => simp [setShouldAttachAt]
  | cons a rest ih =>
    cases i with
    | zero =>
      cases j with
      | zero => exact absurd rfl h
      | succ j => simp [setShouldAttachAt]
    | succ i =>
      cases j with
      | zero => simp [setShouldAttachAt]
      | succ j => simpa [setShouldAttachAt] using ih i j (by omega)

theorem mem_setShouldAttachAt {x : ClXdpAttachInfoState}
    {ls : List ClXdpAttachInfoState} {i : Nat} {b : Bool}
    (h : x ∈ setShouldAttachAt ls i b) :
    x ∈ ls ∨ ∃ a, ls[i]? = some a ∧ x = a.setShouldAttach b := by
  induction ls generalizing i with
  | nil => simp [setShouldAttachAt] at h
  | cons a rest ih =>
    cases i with
    | zero =>
      simp only [setShouldAttachAt, List.mem_cons] at h
      rcases h with h | h
      · exact .inr ⟨a, by simp, h⟩
      · exact .inl (List.mem_cons_of_mem a h)
    | succ i =>
      simp only [setShouldAttachAt, List.mem_cons] at h
      rcases h with h | h
      · exact .inl (h ▸ List.mem_cons_self a rest)
      · rcases ih h with h' | ⟨y, hy, hxy⟩
        · exact .inl (List.mem_cons_of_mem a h')
        · exact .inr ⟨y, by simpa using hy, hxy⟩

/-- One `updateLinksStep` leaves every entry in place, possibly rewriting
only its `ShouldAttach` flag, and never turns a true flag false. -/
theorem updateLinksStep_frame (acc : List ClXdpAttachInfoState)
    (e : ClXdpAttachInfoState) {i : Nat} {a : ClXdpAttachInfoState}
    (h : acc[i]? = some a) :
    ∃ b, (updateLinksStep acc e)[i]? = some (a.setShouldAttach b) ∧
      (a.ShouldAttach = true → b = true) := by
  have hi : i < acc.length := by
    by_contra hge
    rw [List.getElem?_eq_none (by omega)] at h
    exact Option.noConfusion h
  unfold updateLinksStep
  cases hf : findLink acc e with
  | none =>
    refine ⟨a.ShouldAttach, ?_, fun h => h⟩
    rw [List.getElem?_append_left hi, h, setShouldAttach_self]
  | some k =>
    by_cases hik : i = k
    · subst hik
      refine ⟨true, ?_, fun _ => rfl⟩
      rw [getElem?_setShouldAttachAt_self, h]
      simp
    · refine ⟨a.ShouldAttach, ?_, fun h => h⟩
      rw [getElem?_setShouldAttachAt_ne _ _ _ _ hik, h]
      simp

/-- The whole expected-links fold keeps every existing entry in place,
rewriting only `ShouldAttach`, monotonically towards true. -/
theorem foldl_updateLinksStep_frame (exp : List ClXdpAttachInfoState) :
    ∀ (acc : List ClXdpAttachInfoState) {i : Nat} {a : ClXdpAttachInfoState},
      acc[i]? = some a →
      ∃ b, (exp.foldl updateLinksStep acc)[i]? = some (a.setShouldAttach b) ∧
        (a.ShouldAttach = true → b = true) := by
  induction exp with
  | nil =>
    intro acc i a h
    exact ⟨a.ShouldAttach, by simpa using h, fun h => h⟩
  | cons e exp ih =>
    intro acc i a h
    obtain ⟨b₀, h₀, m₀⟩ := updateLinksStep_frame acc e h
    obtain ⟨b₁, h₁, m₁⟩ := ih (updateLinksStep acc e) h₀
    refine ⟨b₁, by simpa using h₁, fun hSA => m₁ (by simp [m₀ hSA])⟩

theorem length_le_foldl_updateLinksStep (exp : List ClXdpAttachInfoState) :
    ∀ acc : List ClXdpAttachInfoState,
      acc.length ≤ (exp.foldl updateLinksStep acc).length := by
  induction exp with
  | nil => intro acc; simp
  | cons e exp ih =>
    intro acc
    refine le_trans ?_ (ih (updateLinksStep acc e))
    unfold updateLinksStep
    cases hf : findLink acc e with
    | none => simp
    | some k => simp

/-- The double fold of `updateLinks` over the per-entry expected lists is
the fold over their concatenation. -/
theorem updateLinks_eq_foldl_join (links : List ClXdpAttachInfoState)
    (exps : List (List ClXdpAttachInfoState)) :
    updateLinks links exps false =
      exps.flatten.foldl updateLinksStep (links.map (·.setShouldAttach false)) := by
  simp only [updateLinks, if_neg (Bool.false_ne_true)]
  generalize links.map (·.setShouldAttach false) = acc
  induction exps generalizing acc with
  | nil => simp
  | cons e exps ih => simp [List.foldl_append, ih]

/-- Entries beyond the original length of the collection are appended
expected records (needs the expansion invariant `ShouldAttach = true`,
which `getExpectedLinks` guarantees, so that a later duplicate cannot
change an already-appended record). -/
theorem foldl_updateLinksStep_tail :
    ∀ (exp acc : List ClXdpAttachInfoState) (j : Nat) (x : ClXdpAttachInfoState),
      (∀ y ∈ exp, y.ShouldAttach = true) →
      acc.length ≤ j → (exp.foldl updateLinksStep acc)[j]? = some x → x ∈ exp := by
  intro exp
  induction exp with
  | nil =>
    intro acc j x _ hj hx
    simp only [List.foldl_nil] at hx
    rw [List.getElem?_eq_none (by omega)] at hx
    exact Option.noConfusion hx
  | cons e exp ih =>
    intro acc j x hexp hj hx
    simp only [List.foldl_cons] at hx
    have hexp' : ∀ y ∈ exp, y.ShouldAttach = true := fun y hy =>
      hexp y (List.mem_cons_of_mem e hy)
    cases hf : findLink acc e with
    | some k =>
      simp only [updateLinksStep, hf] at hx
      exact List.mem_cons_of_mem e
        (ih (setShouldAttachAt acc k true) j x hexp' (by simpa using hj) hx)
    | none =>
      simp only [updateLinksStep, hf] at hx
      by_cases hjlen : acc.length + 1 ≤ j
      · exact List.mem_cons_of_mem e
          (ih (acc ++ [e]) j x hexp' (by simpa using hjlen) hx)
      · have hj' : j = acc.length := by omega
        subst hj'
        have hacc : (acc ++ [e])[acc.length]? = some e := by
          rw [List.getElem?_append_right (le_refl _)]
          simp
        obtain ⟨b, hb, mono⟩ := foldl_updateLinksStep_frame exp (acc ++ [e]) hacc
        rw [hx] at hb
        have heSA : e.ShouldAttach = true := hexp e (List.mem_cons_self e exp)
        obtain rfl : x = e.setShouldAttach b := Option.some.inj hb
        rw [mono heSA, setShouldAttach_eq_self e true heSA]
        exact List.mem_cons_self e exp

/-- Every expected record, at the end of the fold, has an identity-equal
entry whose `ShouldAttach` is true (the expansion invariant
`ShouldAttach = true` covers the freshly-appended case). -/
theorem foldl_updateLinksStep_matched :
    ∀ (exp acc : List ClXdpAttachInfoState),
      (∀ y ∈ exp, y.ShouldAttach = true) →
      ∀ e ∈ exp, ∃ r ∈ exp.foldl updateLinksStep acc,
        xdpLinksMatch r e = true ∧ r.ShouldAttach = true := by
  intro exp
  induction exp with
  | nil => intro acc _ e he; simp at he
  | cons f exp ih =>
    intro acc hexp e he
    have hexp' : ∀ y ∈ exp, y.ShouldAttach = true := fun y hy =>
      hexp y (List.mem_cons_of_mem f hy)
    rw [List.mem_cons] at he
    rcases he with rfl | he
    · -- the head record: after its own step there is a matching true entry,
      -- and the frame lemma keeps it true through the rest of the fold
      have step : ∃ (i : Nat) (r₀ : ClXdpAttachInfoState), (updateLinksStep acc e)[i]? = some r₀ ∧
          xdpLinksMatch r₀ e = true ∧ r₀.ShouldAttach = true := by
        cases hf : findLink acc e with
        | some k =>
          obtain ⟨a, ha, ham⟩ := findLink_some_match hf
          refine ⟨k, a.setShouldAttach true, ?_, by simpa using ham, by simp⟩
          simp only [updateLinksStep, hf]
          rw [getElem?_setShouldAttachAt_self, ha, Option.map]
        | none =>
          refine ⟨acc.length, e, ?_, xdpLinksMatch_refl e,
            hexp e (List.mem_cons_self e exp)⟩
          simp only [updateLinksStep, hf]
          rw [List.getElem?_append_right (le_refl _)]
          simp
      obtain ⟨i, r₀, hi, hm, hSA⟩ := step
      obtain ⟨b, hb, mono⟩ := foldl_updateLinksStep_frame exp (updateLinksStep acc e) hi
      refine ⟨r₀.setShouldAttach b, ?_, by simpa using hm, by simp [mono hSA]⟩
      simp only [List.foldl_cons]
      exact List.getElem?_mem hb
    · simpa using ih (updateLinksStep acc f) hexp' e he

/-- An entry matched by no expected record is completely untouched by the
fold (in particular its `ShouldAttach` stays what it was). -/
theorem foldl_updateLinksStep_unmatched :
    ∀ (exp acc : List ClXdpAttachInfoState) (i : Nat) (a : ClXdpAttachInfoState),
      acc[i]? = some a → (∀ e ∈ exp, xdpLinksMatch a e = false) →
      (exp.foldl updateLinksStep acc)[i]? = some a := by
  intro exp
  induction exp with
  | nil => intro acc i a ha _; simpa using ha
  | cons f exp ih =>
    intro acc i a ha hno
    have hno' : ∀ e ∈ exp, xdpLinksMatch a e = false := fun e he =>
      hno e (List.mem_cons_of_mem f he)
    have hstep : (updateLinksStep acc f)[i]? = some a := by
      cases hf : findLink acc f with
      | some k =>
        simp only [updateLinksStep, hf]
        have hik : i ≠ k := by
          intro rfl_ik
          subst rfl_ik
          obtain ⟨x, hx, hxm⟩ := findLink_some_match hf
          rw [ha] at hx
          obtain rfl : x = a := by
            have := Option.some.inj hx
            exact this.symm
          rw [hno f (List.mem_cons_self f exp)] at hxm
          exact Bool.noConfusion hxm
        rw [getElem?_setShouldAttachAt_ne _ _ _ _ hik, ha]
      | none =>
        simp only [updateLinksStep, hf]
        have hi : i < acc.length := by
          by_contra hge
          rw [List.getElem?_eq_none (by omega)] at ha
          exact Option.noConfusion ha
        rw [List.getElem?_append_left hi, ha]
    simpa using ih (updateLinksStep acc f) i a hstep hno'

/-- When every expected record already has an identity-equal entry in the
collection, the fold appends nothing. -/
theorem foldl_updateLinksStep_nogrow :
    ∀ (exp acc : List ClXdpAttachInfoState),
      (∀ e ∈ exp, ∃ a ∈ acc, xdpLinksMatch a e = true) →
      (exp.foldl updateLinksStep acc).length = acc.length := by
  intro exp
  induction exp with
  | nil => intro acc _; simp
  | cons f exp ih =>
    intro acc hall
    obtain ⟨a, ha, ham⟩ := hall f (List.mem_cons_self f exp)
    have hf : findLink acc f ≠ none := findLink_isSome_of_match ha ham
    cases hfl : findLink acc f with
    | none => exact absurd hfl hf
    | some k =>
      have hstep : updateLinksStep acc f = setShouldAttachAt acc k true := by
        simp only [updateLinksStep, hfl]
      have hall' : ∀ e ∈ exp, ∃ a' ∈ setShouldAttachAt acc k true,
          xdpLinksMatch a' e = true := by
        intro e he
        obtain ⟨a', ha', ham'⟩ := hall e (List.mem_cons_of_mem f he)
        obtain ⟨j, hj⟩ := List.getElem?_of_mem ha'
        by_cases hjk : j = k
        · subst hjk
          have hidx : (setShouldAttachAt acc j true)[j]? = some (a'.setShouldAttach true) := by
            rw [getElem?_setShouldAttachAt_self, hj]
            rfl
          exact ⟨a'.setShouldAttach true, List.getElem?_mem hidx, by simpa using ham'⟩
        · have hidx : (setShouldAttachAt acc k true)[j]? = some a' := by
            rw [getElem?_setShouldAttachAt_ne _ _ _ _ hjk, hj]
          exact ⟨a', List.getElem?_mem hidx, ham'⟩
      simp only [List.foldl_cons, hstep]
      rw [ih (setShouldAttachAt acc k true) hall']
      simp

theorem noDupTrue_step (acc : List ClXdpAttachInfoState)
    (e : ClXdpAttachInfoState) (h : NoDupTrue acc) :
    NoDupTrue (updateLinksStep acc e) := by
  cases hf : findLink acc e with
  | some k =>
    obtain ⟨ak, hak, hakm⟩ := findLink_some_match hf
    intro i j ai aj hij hi hj hm
    simp only [updateLinksStep, hf] at hi hj
    by_cases hjk : j = k
    · -- setting index k true is safe: no earlier entry shares k's identity
      subst hjk
      rw [getElem?_setShouldAttachAt_self, hak] at hj
      obtain rfl : aj = ak.setShouldAttach true := by
        simpa using hj.symm
      rw [getElem?_setShouldAttachAt_ne _ _ _ _ (by omega)] at hi
      have hme : xdpLinksMatch ai e = true :=
        xdpLinksMatch_trans (by simpa using hm) hakm
      have := findLink_some_first hf i ai hij hi
      rw [hme] at this
      exact Bool.noConfusion this
    · rw [getElem?_setShouldAttachAt_ne _ _ _ _ hjk] at hj
      by_cases hik : i = k
      · subst hik
        rw [getElem?_setShouldAttachAt_self, hak] at hi
        obtain rfl : ai = ak.setShouldAttach true := by
          simpa using hi.symm
        exact h i j ak aj hij hak hj (by simpa using hm)
      · rw [getElem?_setShouldAttachAt_ne _ _ _ _ hik] at hi
        exact h i j ai aj hij hi hj hm
  | none =>
    have hfall : ∀ a ∈ acc, xdpLinksMatch a e = false := (findLink_eq_none_iff acc e).mp hf
    intro i j ai aj hij hi hj hm
    simp only [updateLinksStep, hf] at hi hj
    by_cases hjlen : j < acc.length
    · rw [List.getElem?_append_left hjlen] at hj
      rw [List.getElem?_append_left (by omega)] at hi
      exact h i j ai aj hij hi hj hm
    · -- aj is the appended record e, which no existing entry matches
      have hjeq : j = acc.length := by
        by_contra hne
        rw [List.getElem?_eq_none (by simp; omega)] at hj
        exact Option.noConfusion hj
      subst hjeq
      rw [List.getElem?_append_right (le_refl _)] at hj
      simp only [Nat.sub_self, List.getElem?_cons_zero] at hj
      obtain rfl : aj = e := by simpa using hj.symm
      rw [List.getElem?_append_left (by omega)] at hi
      have := hfall ai (List.getElem?_mem hi)
      rw [hm] at this
      exact Bool.noConfusion this

theorem noDupTrue_foldl :
    ∀ (exp acc : List ClXdpAttachInfoState), NoDupTrue acc →
      NoDupTrue (exp.foldl updateLinksStep acc) := by
  intro exp
  induction exp with
  | nil => intro acc h; simpa using h
  | cons e exp ih =>
    intro acc h
    simpa using ih (updateLinksStep acc e) (noDupTrue_step acc e h)

theorem noDupTrue_reset (links : List ClXdpAttachInfoState) :
    NoDupTrue (links.map (·.setShouldAttach false)) := by
  intro i j ai aj hij hi hj hm
  rw [List.getElem?_map] at hj
  cases hthere : links[j]? with
  | none => rw [hthere] at hj; exact Option.noConfusion hj
  | some x =>
    rw [hthere] at hj
    obtain rfl : aj = x.setShouldAttach false := by simpa using hj.symm
    rfl

/-- Conversely, every entry that ends the fold with `ShouldAttach = true`
is identity-equal to an expected record or was already true in the
starting collection. -/
theorem foldl_updateLinksStep_true_matched :
    ∀ (exp acc : List ClXdpAttachInfoState) (x : ClXdpAttachInfoState),
      x ∈ exp.foldl updateLinksStep acc → x.ShouldAttach = true →
      (∃ e ∈ exp, xdpLinksMatch x e = true) ∨
        (∃ a ∈ acc, a.ShouldAttach = true ∧ xdpLinksMatch x a = true) := by
  intro exp
  induction exp with
  | nil =>
    intro acc x hx hSA
    exact .inr ⟨x, by simpa using hx, hSA, xdpLinksMatch_refl x⟩
  | cons f exp ih =>
    intro acc x hx hSA
    simp only [List.foldl_cons] at hx
    rcases ih (updateLinksStep acc f) x hx hSA with ⟨e, he, hem⟩ | ⟨a', ha', haSA, ham⟩
    · exact .inl ⟨e, List.mem_cons_of_mem f he, hem⟩
    · cases hf : findLink acc f with
      | some k =>
        simp only [updateLinksStep, hf] at ha'
        rcases mem_setShouldAttachAt ha' with hmem | ⟨ak, hak, rfl⟩
        · exact .inr ⟨a', hmem, haSA, ham⟩
        · obtain ⟨ak', hak', hakm⟩ := findLink_some_match hf
          rw [hak] at hak'
          obtain rfl : ak' = ak := by simpa using hak'.symm
          have : xdpLinksMatch x f = true :=
            xdpLinksMatch_trans (by simpa using ham) hakm
          exact .inl ⟨f, List.mem_cons_self f exp, this⟩
      | none =>
        simp only [updateLinksStep, hf] at ha'
        rw [List.mem_append] at ha'
        rcases ha' with hmem | hlast
        · exact .inr ⟨a', hmem, haSA, ham⟩
        · have haf : a' = f := by simpa using hlast
          rw [haf] at ham
          exact .inl ⟨f, List.mem_cons_self f exp, ham⟩

theorem getLast?_cons_eq_or {α : Type} (e : α) (t : List α) :
    (e :: t).getLast? = Option.or t.getLast? (some e) := by
  cases t with
  | nil => rfl
  | cons x t' =>
    rw [List.getLast?_cons_cons]
    cases hl : (x :: t').getLast? with
    | none =>
      rw [List.getLast?_eq_none_iff] at hl
      exact List.noConfusion hl
    | some y => rfl

/-- The `processLinks` loop, characterised: every link is reconciled
independently via `reconcileBpfLink`, the marked ones are removed, the
last per-link error survives, and the RPC calls concatenate in order. -/
theorem processLinks_foldl_eq (rpc : Rpc) :
    ∀ (links : List ClXdpAttachInfoState) (acc : List (ClXdpAttachInfoState × Bool))
      (err0 : Option String) (calls0 : List RpcCall),
      links.foldl
        (fun (st : List (ClXdpAttachInfoState × Bool) × Option String × List RpcCall) l =>
          let r := reconcileBpfLink rpc l
          (st.1 ++ [(r.link, r.remove)],
           (match r.err with | some e => some e | none => st.2.1),
           st.2.2 ++ r.calls))
        (acc, err0, calls0) =
      (acc ++ links.map (fun l =>
          ((reconcileBpfLink rpc l).link, (reconcileBpfLink rpc l).remove)),
       Option.or ((links.filterMap (fun l => (reconcileBpfLink rpc l).err)).getLast?) err0,
       calls0 ++ (links.map (fun l => (reconcileBpfLink rpc l).calls)).flatten) := by
  intro links
  induction links with
  | nil => intro acc err0 calls0; simp
  | cons l rest ih =>
    intro acc err0 calls0
    simp only [List.foldl_cons]
    rw [ih]
    simp only [List.map_cons, List.filterMap_cons, List.flatten_cons]
    refine congrArg₂ Prod.mk ?_ (congrArg₂ Prod.mk ?_ ?_)
    · simp
    · cases herr : (reconcileBpfLink rpc l).err with
      | none => simp
      | some e =>
        simp only []
        rw [getLast?_cons_eq_or, Option.or_assoc]
        rfl
    · simp

theorem processLinks_eq (rpc : Rpc) (links : List ClXdpAttachInfoState) :
    processLinks rpc links =
      { links := ((links.map (reconcileBpfLink rpc)).filter (fun r => !r.remove)).map
          (·.link),
        status := updateProgramAttachStatus
          (((links.map (reconcileBpfLink rpc)).filter (fun r => !r.remove)).map (·.link)),
        lastErr := ((links.map (reconcileBpfLink rpc)).filterMap (·.err)).getLast?,
        calls := ((links.map (reconcileBpfLink rpc)).map (·.calls)).flatten } := by
  unfold processLinks
  rw [processLinks_foldl_eq]
  simp only [List.nil_append, Option.or_none]
  congr 1
  · rw [List.filter_map, List.map_map, List.filter_map, List.map_map]
    congr 1
  · rw [List.filter_map, List.map_map, List.filter_map, List.map_map]
    congr 1
  · rw [List.filterMap_map]
    rfl
  · rw [List.map_map]
    rfl

theorem reconcileBpfLink_link_ShouldAttach (rpc : Rpc) (l : ClXdpAttachInfoState) :
    ((reconcileBpfLink rpc l).link).ShouldAttach = l.ShouldAttach := by
  unfold reconcileBpfLink
  split <;> split <;> try rfl
  all_goals (split <;> rfl)

theorem reconcileBpfLink_match_left (rpc : Rpc) (l y : ClXdpAttachInfoState) :
    xdpLinksMatch ((reconcileBpfLink rpc l).link) y = xdpLinksMatch l y := by
  unfold reconcileBpfLink
  split <;> split <;> try rfl
  all_goals (split <;> rfl)

theorem reconcileBpfLink_match_right (rpc : Rpc) (l y : ClXdpAttachInfoState) :
    xdpLinksMatch y ((reconcileBpfLink rpc l).link) = xdpLinksMatch y l := by
  rw [xdpLinksMatch_comm, reconcileBpfLink_match_left, xdpLinksMatch_comm]

theorem reconcileBpfLink_remove_of_shouldAttach (rpc : Rpc)
    {l : ClXdpAttachInfoState} (h : l.ShouldAttach = true) :
    (reconcileBpfLink rpc l).remove = false := by
  unfold reconcileBpfLink
  rw [if_pos h]
  split
  · split <;> rfl
  · rfl

theorem reconcileBpfLink_kept (rpc : Rpc) {l : ClXdpAttachInfoState}
    (hrem : (reconcileBpfLink rpc l).remove = false)
    (herr : (reconcileBpfLink rpc l).err = none) :
    ((reconcileBpfLink rpc l).link).ShouldAttach = true ∧
      ((reconcileBpfLink rpc l).link).LinkId.isSome = true := by
  by_cases hSA : l.ShouldAttach = true
  · cases hid : l.LinkId with
    | none =>
      cases hat : rpc.attach l with
      | ok id => simp [reconcileBpfLink, hSA, hid, hat]
      | error e => simp [reconcileBpfLink, hSA, hid, hat] at herr
    | some id => simp [reconcileBpfLink, hSA, hid]
  · have hSA' : l.ShouldAttach = false := by simpa using hSA
    cases hid : l.LinkId with
    | none => simp [reconcileBpfLink, hSA', hid] at hrem
    | some id =>
      cases hdt : rpc.detach id with
      | ok u => simp [reconcileBpfLink, hSA', hid, hdt] at hrem
      | error e => simp [reconcileBpfLink, hSA', hid, hdt] at herr

theorem reconcileBpfLink_attached (rpc : Rpc) {l : ClXdpAttachInfoState}
    (hSA : l.ShouldAttach = true) (hid : l.LinkId.isSome = true) :
    reconcileBpfLink rpc l =
      { link := l, remove := false, err := none, calls := [] } := by
  unfold reconcileBpfLink
  rw [if_pos hSA]
  cases h : l.LinkId with
  | none => rw [h] at hid; exact Bool.noConfusion hid
  | some id => rfl

theorem updateProgramAttachStatus_eq_success_iff (links : List ClXdpAttachInfoState) :
    updateProgramAttachStatus links = .progAttachSuccess ↔
      ∀ l ∈ links, l.ShouldAttach = l.LinkId.isSome := by
  induction links with
  | nil => simp [updateProgramAttachStatus]
  | cons l rest ih =>
    by_cases h : isAttachSuccess l.ShouldAttach l.LinkId = true
    · have hl : l.ShouldAttach = l.LinkId.isSome := by
        simpa [isAttachSuccess] using h
      simp [updateProgramAttachStatus, isAttachSuccess, ih, hl]
    · have hl : ¬ l.ShouldAttach = l.LinkId.isSome := by
        simpa [isAttachSuccess] using h
      rw [Bool.not_eq_true] at h
      simp only [updateProgramAttachStatus, h, Bool.not_false, if_pos]
      constructor
      · intro hcon
        exact absurd hcon (by simp)
      · intro hall
        exact absurd (hall l (List.mem_cons_self l rest)) hl

theorem updateProgramAttachStatus_cases (links : List ClXdpAttachInfoState) :
    updateProgramAttachStatus links = .progAttachSuccess ∨
      updateProgramAttachStatus links = .progAttachError := by
  cases h : updateProgramAttachStatus links with
  | progAttachSuccess => exact .inl rfl
  | progAttachError => exact .inr rfl

theorem xdpProceedOnLoopBody_eq (out : List Int) (p : String) :
    xdpProceedOnLoopBody out p = out ++ (xdpProceedOnValueToInt p).toList := by
  unfold xdpProceedOnLoopBody
  split
  · rfl
  · rfl
  · rfl
  · rfl
  · rfl
  · rfl
  · have : xdpProceedOnValueToInt p = none := by
      unfold xdpProceedOnValueToInt
      split <;> simp_all
    rw [this]
    simp

theorem xdpProceedOnToInt_foldl (l : List String) :
    ∀ out : List Int,
      l.foldl xdpProceedOnLoopBody out = out ++ l.filterMap xdpProceedOnValueToInt := by
  induction l with
  | nil => intro out; simp
  | cons p rest ih =>
    intro out
    simp only [List.foldl_cons, List.filterMap_cons]
    rw [ih, xdpProceedOnLoopBody_eq]
    cases h : xdpProceedOnValueToInt p with
    | none => simp
    | some v => simp

/-- C10: the XDP proceed-on conversion maps each element by exact,
case-sensitive name (Aborted to 0, Drop to 1, Pass to 2, TX to 3,
ReDirect to 4, DispatcherReturn to 31) and silently omits any element
matching none of those six names, so the converted list is the
order-preserving `filterMap` of the input (hence never longer than it),
and a list of only unrecognised spellings such as the test's lowercase
"pass" and "dispatcher_return" converts to the empty list with no
error. -/
theorem xdpProceedOnToInt_spec :
    (∀ l, xdpProceedOnToInt l = l.filterMap xdpProceedOnValueToInt) ∧
    xdpProceedOnValueToInt ("Aborted") = some 0 ∧
    xdpProceedOnValueToInt ("Drop") = some 1 ∧
    xdpProceedOnValueToInt ("Pass") = some 2 ∧
    xdpProceedOnValueToInt ("TX") = some 3 ∧
    xdpProceedOnValueToInt ("ReDirect") = some 4 ∧
    xdpProceedOnValueToInt ("DispatcherReturn") = some 31 ∧
    xdpProceedOnToInt ["Aborted", "Drop", "Pass", "TX", "ReDirect", "DispatcherReturn"] =
      [0, 1, 2, 3, 4, 31] ∧
    xdpProceedOnToInt ["pass", "dispatcher_return"] = [] ∧
    (∀ l, (xdpProceedOnToInt l).length ≤ l.length) := by
  refine ⟨fun l => xdpProceedOnToInt_foldl l [], rfl, rfl, rfl, rfl, rfl, rfl,
    by rfl, by rfl, fun l => ?_⟩
  rw [show xdpProceedOnToInt l = l.filterMap xdpProceedOnValueToInt from
    xdpProceedOnToInt_foldl l []]
  simpa using List.length_filterMap_le xdpProceedOnValueToInt l

/-- Witness for C10: the characterisation evaluated at a concrete mixed
list. -/
theorem xdpProceedOnToInt_spec_witness :
    xdpProceedOnToInt ["Pass", "pass", "TX"] =
      (["Pass", "pass", "TX"] : List String).filterMap xdpProceedOnValueToInt :=
  xdpProceedOnToInt_spec.1 ["Pass", "pass", "TX"]

/-- C3: after every link-processing pass the recomputed aggregate
`ProgramLinkStatus` is Success iff every AttachRecord satisfies
`ShouldAttach == (LinkId != nil)` (the per-record predicate
`isAttachSuccess` is modelled from spec §3, its body not being under
src/), otherwise it is Error; for the empty collection it is Success. -/
theorem updateProgramAttachStatus_spec (links : List ClXdpAttachInfoState) :
    (updateProgramAttachStatus links = .progAttachSuccess ↔
      ∀ l ∈ links, l.ShouldAttach = l.LinkId.isSome) ∧
    ((¬ ∀ l ∈ links, l.ShouldAttach = l.LinkId.isSome) →
      updateProgramAttachStatus links = .progAttachError) ∧
    updateProgramAttachStatus ([] : List ClXdpAttachInfoState) = .progAttachSuccess := by
  refine ⟨updateProgramAttachStatus_eq_success_iff links, ?_, rfl⟩
  intro hnot
  rcases updateProgramAttachStatus_cases links with hs | he
  · exact absurd ((updateProgramAttachStatus_eq_success_iff links).mp hs) hnot
  · exact he

/-- Witness for C3: a record wanting attachment but without a `LinkId`
makes the aggregate Error. -/
theorem updateProgramAttachStatus_spec_witness :
    (¬ ∀ l ∈ [({ ShouldAttach := true, UUID := "u", LinkId := none,
                 LinkStatus := .notAttached, InterfaceName := "eth0",
                 NetnsPath := "", Priority := 0, ProceedOn := none }
               : ClXdpAttachInfoState)],
      l.ShouldAttach = l.LinkId.isSome) ∧
    updateProgramAttachStatus
      [({ ShouldAttach := true, UUID := "u", LinkId := none,
          LinkStatus := .notAttached, InterfaceName := "eth0",
          NetnsPath := "", Priority := 0, ProceedOn := none }
        : ClXdpAttachInfoState)] = .progAttachError :=
  ⟨by decide,
   (updateProgramAttachStatus_spec _).2.1 (by decide)⟩

/-- Counterexample for C4: two records agreeing on interface name,
priority and namespace path, one with a nil proceed-on list and the other
with an explicitly empty one, are NOT identity-equal — `reflect.DeepEqual`
distinguishes a nil slice from an empty slice, so `findLink` does not
match them, contrary to the claim that an absent list equals an
explicitly empty one. -/
theorem findLink_nil_vs_empty_counterexample :
    xdpLinksMatch
      { ShouldAttach := false, UUID := "u1", LinkId := none,
        LinkStatus := .notAttached, InterfaceName := "eth0", NetnsPath := "",
        Priority := 1, ProceedOn := none }
      { ShouldAttach := false, UUID := "u2", LinkId := none,
        LinkStatus := .notAttached, InterfaceName := "eth0", NetnsPath := "",
        Priority := 1, ProceedOn := some [] } = false ∧
    findLink
      [{ ShouldAttach := false, UUID := "u1", LinkId := none,
         LinkStatus := .notAttached, InterfaceName := "eth0", NetnsPath := "",
         Priority := 1, ProceedOn := none }]
      { ShouldAttach := false, UUID := "u2", LinkId := none,
        LinkStatus := .notAttached, InterfaceName := "eth0", NetnsPath := "",
        Priority := 1, ProceedOn := some [] } = none := by
  constructor
  · rfl
  · rfl

/-- C4 as amended: the identity comparison of `findLink` is true iff
interface name, priority, namespace path and proceed-on list are all
equal, it ignores UUID, LinkId, LinkStatus and ShouldAttach, and it is
symmetric; the namespace path is a plain string (so an absent path is the
empty string), but the proceed-on list is compared with Go slice
semantics under which a nil list is NOT equal to an explicitly empty
one. -/
theorem findLink_identity_amended :
    (∀ a b : ClXdpAttachInfoState, xdpLinksMatch a b = true ↔
      a.InterfaceName = b.InterfaceName ∧ a.Priority = b.Priority ∧
        a.NetnsPath = b.NetnsPath ∧ a.ProceedOn = b.ProceedOn) ∧
    (∀ (a b : ClXdpAttachInfoState) (sa : Bool) (u : String) (li : Option Nat)
        (ls : LinkStatus),
      xdpLinksMatch
        { a with ShouldAttach := sa, UUID := u, LinkId := li, LinkStatus := ls } b =
        xdpLinksMatch a b) ∧
    (∀ (a b : ClXdpAttachInfoState) (sa : Bool) (u : String) (li : Option Nat)
        (ls : LinkStatus),
      xdpLinksMatch a
        { b with ShouldAttach := sa, UUID := u, LinkId := li, LinkStatus := ls } =
        xdpLinksMatch a b) ∧
    (∀ a b : ClXdpAttachInfoState, xdpLinksMatch a b = xdpLinksMatch b a) ∧
    (∀ (links : List ClXdpAttachInfoState) (l : ClXdpAttachInfoState),
      findLink links l = none ↔ ∀ a ∈ links, xdpLinksMatch a l = false) :=
  ⟨xdpLinksMatch_eq_true_iff, fun _ _ _ _ _ _ => rfl, fun _ _ _ _ _ _ => rfl,
    xdpLinksMatch_comm, findLink_eq_none_iff⟩

/-- Witness for C4 (amended): the identity characterisation evaluated at
two concrete records differing only in volatile fields. -/
theorem findLink_identity_amended_witness :
    xdpLinksMatch
      { ShouldAttach := true, UUID := "a", LinkId := some 3,
        LinkStatus := .attachSuccess, InterfaceName := "eth0", NetnsPath := "/ns",
        Priority := 5, ProceedOn := some ["Pass"] }
      { ShouldAttach := false, UUID := "b", LinkId := none,
        LinkStatus := .notAttached, InterfaceName := "eth0", NetnsPath := "/ns",
        Priority := 5, ProceedOn := some ["Pass"] } = true ↔
      ("eth0" : String) = "eth0" ∧ (5 : Int) = 5 ∧ ("/ns" : String) = "/ns" ∧
        (some ["Pass"] : Option (List String)) = some ["Pass"] :=
  findLink_identity_amended.1 _ _

/-- C9: after each reconcile the program object's status holds exactly
one terminal condition; when more than one is present at the start of the
reconcile, the list is collapsed to the single freshly computed (most
recent) condition (`updateCondition` is modelled from spec §4.4, its body
not being under src/). -/
theorem updateCondition_spec (conds : List Condition) (c : Condition)
    (_h : conds.length > 1) :
    updateCondition conds c = [c] ∧ (updateCondition conds c).length = 1 :=
  ⟨rfl, rfl⟩

/-- Witness for C9: the `multiCondition` scenario of the fentry test
(part_007:148-179): two stale conditions collapse to the single
`ReconcileSuccess` one. -/
theorem updateCondition_spec_witness :
    ([⟨ProgramDeleteError, "bogus condition #1"⟩,
      ⟨ProgramReconcileError, "bogus condition #2"⟩] : List Condition).length > 1 ∧
    updateCondition
      [⟨ProgramDeleteError, "bogus condition #1"⟩,
       ⟨ProgramReconcileError, "bogus condition #2"⟩]
      ⟨ProgramReconcileSuccess, ""⟩ = [⟨ProgramReconcileSuccess, ""⟩] ∧
    (updateCondition
      [⟨ProgramDeleteError, "bogus condition #1"⟩,
       ⟨ProgramReconcileError, "bogus condition #2"⟩]
      ⟨ProgramReconcileSuccess, ""⟩).length = 1 := by
  refine ⟨by decide, ?_⟩
  exact updateCondition_spec _ _ (by decide)

theorem buildAppProgramMap_eq (sanitize : String → String) (ifaceOk : AppProgram → Bool) :
    ∀ (ps : List AppProgram) (m : List String),
      ps.foldl
        (fun m p =>
          if needsInterfaces p && !ifaceOk p then m else m ++ [appProgramIdOf sanitize p])
        m =
      m ++ (ps.filter (fun p => !(needsInterfaces p && !ifaceOk p))).map
        (appProgramIdOf sanitize) := by
  intro ps
  induction ps with
  | nil => intro m; simp
  | cons p ps ih =>
    intro m
    simp only [List.foldl_cons]
    rw [ih]
    simp only [List.filter_cons]
    cases hp : needsInterfaces p && !ifaceOk p with
    | true => simp [hp]
    | false => simp [hp]

theorem selectDeletedPrograms_eq (ids : List String) (owned : List OwnedBpfProgram) :
    selectDeletedPrograms ids owned =
      owned.filter (fun bp => !ids.contains bp.appProgramId) := by
  have h : ∀ (os : List OwnedBpfProgram) (acc : List OwnedBpfProgram),
      os.foldl (fun acc bp => if ids.contains bp.appProgramId then acc else acc ++ [bp]) acc =
        acc ++ os.filter (fun bp => !ids.contains bp.appProgramId) := by
    intro os
    induction os with
    | nil => intro acc; simp
    | cons bp os ih =>
      intro acc
      simp only [List.foldl_cons]
      rw [ih]
      simp only [List.filter_cons]
      cases hc : ids.contains bp.appProgramId with
      | true => simp [hc]
      | false => simp [hc]
  unfold selectDeletedPrograms
  rw [h owned [], List.nil_append]

/-- C8: for a composite reconcile in which every sub-program arm ran
(`ifaceOk` succeeds wherever `getInterfaces` is consulted), the cleanup
step deletes exactly the previously created sub-records whose stable
identity string no longer appears among the identities built from the
current spec, and keeps exactly those whose identity does appear. -/
theorem applicationCleanup_spec (sanitize : String → String) (ifaceOk : AppProgram → Bool)
    (ps : List AppProgram) (owned : List OwnedBpfProgram)
    (hcomplete : ∀ p ∈ ps, needsInterfaces p = true → ifaceOk p = true) :
    (∀ bp ∈ owned,
      (bp ∈ (reconcileApplicationCleanup sanitize ifaceOk ps owned).1 ↔
        bp.appProgramId ∉ ps.map (appProgramIdOf sanitize))) ∧
    (∀ bp ∈ (reconcileApplicationCleanup sanitize ifaceOk ps owned).1, bp ∈ owned) ∧
    (∀ bp ∈ owned,
      (bp ∈ (reconcileApplicationCleanup sanitize ifaceOk ps owned).2 ↔
        bp.appProgramId ∈ ps.map (appProgramIdOf sanitize))) := by
  have hids : buildAppProgramMap sanitize ifaceOk ps = ps.map (appProgramIdOf sanitize) := by
    unfold buildAppProgramMap
    rw [buildAppProgramMap_eq]
    rw [List.filter_eq_self.mpr]
    · simp
    · intro p hp
      simp only [Bool.not_eq_eq_eq_not, Bool.not_true, Bool.and_eq_false_imp,
        Bool.not_eq_false]
      intro hneed
      exact hcomplete p hp hneed
  have hdel : (reconcileApplicationCleanup sanitize ifaceOk ps owned).1 =
      owned.filter (fun bp => !(ps.map (appProgramIdOf sanitize)).contains bp.appProgramId) := by
    simp only [reconcileApplicationCleanup]
    rw [hids, selectDeletedPrograms_eq]
  have hkept : (reconcileApplicationCleanup sanitize ifaceOk ps owned).2 =
      owned.filter
        (fun bp => !(reconcileApplicationCleanup sanitize ifaceOk ps owned).1.contains bp) := by
    rfl
  refine ⟨?_, ?_, ?_⟩
  · intro bp hbp
    rw [hdel]
    simp [List.mem_filter, hbp]
  · intro bp hbp
    rw [hdel] at hbp
    exact (List.mem_filter.mp hbp).1
  · intro bp hbp
    rw [hkept, hdel]
    simp [List.mem_filter, hbp]

/-- Witness for C8: a spec with one tracepoint and one xdp sub-program;
the stale fentry sub-record is deleted, the tracepoint one is kept. -/
theorem applicationCleanup_spec_witness :
    (∀ p ∈ [AppProgram.tracepoint ("tp_fn"), AppProgram.xdp ("xdp_fn")],
      needsInterfaces p = true → (fun _ => true) p = true) ∧
    (∀ bp ∈ [({ name := "app-tracepoint", appProgramId := "tracepoint-tp_fn" } : OwnedBpfProgram),
             ({ name := "app-fentry", appProgramId := "fentry-old-fn" } : OwnedBpfProgram)],
      (bp ∈ (reconcileApplicationCleanup (fun s => s) (fun _ => true)
          [AppProgram.tracepoint ("tp_fn"), AppProgram.xdp ("xdp_fn")]
          [({ name := "app-tracepoint", appProgramId := "tracepoint-tp_fn" } : OwnedBpfProgram),
           ({ name := "app-fentry", appProgramId := "fentry-old-fn" } : OwnedBpfProgram)]).1 ↔
        bp.appProgramId ∉
          ([AppProgram.tracepoint ("tp_fn"), AppProgram.xdp ("xdp_fn")].map
            (appProgramIdOf (fun s => s))))) := by
  refine ⟨by decide, ?_⟩
  exact (applicationCleanup_spec (fun s => s) (fun _ => true) _ _ (by decide)).1

/-- Counterexample for C6: the cluster XDP expansion with a
network-namespace selector whose container lookup returns zero containers
emits zero records — not the single annotated sentinel the claim
promises for every expansion. -/
theorem getExpectedLinks_zero_containers_counterexample :
    getExpectedLinks ["eth0"] true (some []) id (fun _ => "") (fun _ => []) 0 none
      (fun _ => "uuid") = [] ∧
    (getExpectedLinks ["eth0"] true (some []) id (fun _ => "") (fun _ => []) 0 none
      (fun _ => "uuid")).length = 0 := ⟨rfl, rfl⟩

/-- C6 as amended: when a container selector matches zero containers the
uprobe expansion (`getExpectedBpfPrograms`) emits exactly one sentinel
record annotated "no containers on node", but the cluster XDP expansion
(`getExpectedLinks`) emits zero records and no sentinel (both when the
lookup yields an empty list and when it yields nil). -/
theorem expansion_zero_containers_amended :
    (∀ (sanitize : String → String) (target functionName : String)
        (ci : Option (List ContainerInfo)), ci = none ∨ ci = some [] →
      getExpectedBpfPrograms sanitize target functionName true ci =
        [createBpfProgram
          (sanitize target ++ "-" ++ sanitize functionName ++ "-no-containers-on-node")
          [(UprobeProgramTarget, target), (UprobeNoContainersOnNode, "true")]]) ∧
    (∀ (interfaces : List String) (cs : List ContainerInfo)
        (getOnePerPod : List ContainerInfo → List ContainerInfo)
        (netnsPathFromPID : Int → String)
        (getNetnsMap : String → List (String × List String))
        (priority : Int) (proceedOn : Option (List String)) (uuidGen : Nat → String),
      getOnePerPod cs = [] →
      getExpectedLinks interfaces true (some cs) getOnePerPod netnsPathFromPID
        getNetnsMap priority proceedOn uuidGen = []) ∧
    (∀ (interfaces : List String)
        (getOnePerPod : List ContainerInfo → List ContainerInfo)
        (netnsPathFromPID : Int → String)
        (getNetnsMap : String → List (String × List String))
        (priority : Int) (proceedOn : Option (List String)) (uuidGen : Nat → String),
      getExpectedLinks interfaces true none getOnePerPod netnsPathFromPID
        getNetnsMap priority proceedOn uuidGen = []) := by
  refine ⟨?_, ?_, ?_⟩
  · intro sanitize target functionName ci hci
    rcases hci with rfl | rfl
    · rfl
    · rfl
  · intro interfaces cs getOnePerPod netnsPathFromPID getNetnsMap priority proceedOn uuidGen h
    simp [getExpectedLinks, h]
  · intro interfaces getOnePerPod netnsPathFromPID getNetnsMap priority proceedOn uuidGen
    rfl

/-- Witness for C6 (amended): both expansions evaluated on concrete
zero-container inputs. -/
theorem expansion_zero_containers_amended_witness :
    getExpectedBpfPrograms (fun s => s) ("tgt") ("fn") true (some []) =
      [createBpfProgram ("tgt" ++ "-" ++ "fn" ++ "-no-containers-on-node")
        [(UprobeProgramTarget, "tgt"), (UprobeNoContainersOnNode, "true")]] ∧
    getExpectedLinks ["eth0"] true (some []) (fun cs => cs) (fun _ => "")
      (fun _ => []) 7 none (fun _ => "u") = [] :=
  ⟨expansion_zero_containers_amended.1 (fun s => s) ("tgt") ("fn") (some []) (.inr rfl),
   expansion_zero_containers_amended.2.1 ["eth0"] [] (fun cs => cs) (fun _ => "")
     (fun _ => []) 7 none (fun _ => "u") rfl⟩

/-- C1: in every (non-deletion) link-update step, every stored record is
kept in place with at most its `ShouldAttach` flag rewritten; a stored
record matched by no expected record ends with `ShouldAttach = false`
(the pessimistic reset); every expected record ends up with an
identity-equal record whose `ShouldAttach` is true; and every entry
beyond the stored ones is an appended expected record.  The hypothesis
that expansion records carry `ShouldAttach = true` is what
`getExpectedLinks` always produces (part_004:327/350/364). -/
theorem updateLinks_spec (links : List ClXdpAttachInfoState)
    (exps : List (List ClXdpAttachInfoState))
    (hexp : ∀ e ∈ exps.flatten, e.ShouldAttach = true) :
    (∀ (i : Nat) (a : ClXdpAttachInfoState), links[i]? = some a →
      ∃ b, (updateLinks links exps false)[i]? = some (a.setShouldAttach b)) ∧
    (∀ (i : Nat) (a : ClXdpAttachInfoState), links[i]? = some a →
      (∀ e ∈ exps.flatten, xdpLinksMatch a e = false) →
      (updateLinks links exps false)[i]? = some (a.setShouldAttach false)) ∧
    (∀ e ∈ exps.flatten, ∃ r ∈ updateLinks links exps false,
      xdpLinksMatch r e = true ∧ r.ShouldAttach = true) ∧
    (∀ (j : Nat) (x : ClXdpAttachInfoState), links.length ≤ j →
      (updateLinks links exps false)[j]? = some x → x ∈ exps.flatten) := by
  rw [updateLinks_eq_foldl_join]
  refine ⟨?_, ?_, ?_, ?_⟩
  · intro i a ha
    have hra : (links.map (·.setShouldAttach false))[i]? = some (a.setShouldAttach false) := by
      rw [List.getElem?_map, ha, Option.map]
    obtain ⟨b, hb, _⟩ := foldl_updateLinksStep_frame exps.flatten _ hra
    exact ⟨b, by simpa using hb⟩
  · intro i a ha hno
    have hra : (links.map (·.setShouldAttach false))[i]? = some (a.setShouldAttach false) := by
      rw [List.getElem?_map, ha, Option.map]
    exact foldl_updateLinksStep_unmatched exps.flatten _ i (a.setShouldAttach false) hra
      (fun e he => by simpa using hno e he)
  · exact foldl_updateLinksStep_matched exps.flatten _ hexp
  · intro j x hj hx
    exact foldl_updateLinksStep_tail exps.flatten _ j x hexp (by simpa using hj) hx

/-- Witness for C1: a stored record matched by a re-expanded record with a
fresh UUID; the matched-record clause evaluated at that input. -/
theorem updateLinks_spec_witness :
    (∀ e ∈ ([[{ ShouldAttach := true, UUID := "provisional", LinkId := none,
                LinkStatus := .notAttached, InterfaceName := "eth0", NetnsPath := "",
                Priority := 0, ProceedOn := none }]] :
        List (List ClXdpAttachInfoState)).flatten, e.ShouldAttach = true) ∧
    (∀ e ∈ ([[{ ShouldAttach := true, UUID := "provisional", LinkId := none,
                LinkStatus := .notAttached, InterfaceName := "eth0", NetnsPath := "",
                Priority := 0, ProceedOn := none }]] :
        List (List ClXdpAttachInfoState)).flatten,
      ∃ r ∈ updateLinks
        [{ ShouldAttach := true, UUID := "stored", LinkId := some 9,
           LinkStatus := .attachSuccess, InterfaceName := "eth0", NetnsPath := "",
           Priority := 0, ProceedOn := none }]
        [[{ ShouldAttach := true, UUID := "provisional", LinkId := none,
            LinkStatus := .notAttached, InterfaceName := "eth0", NetnsPath := "",
            Priority := 0, ProceedOn := none }]] false,
        xdpLinksMatch r e = true ∧ r.ShouldAttach = true) :=
  ⟨by decide, (updateLinks_spec _ _ (by decide)).2.2.1⟩

/-- C7: whenever Expansion re-produces a record identity-equal to a stored
one, the link-update step leaves the stored record's UUID, LinkId,
LinkStatus (and identity fields) unchanged — only `ShouldAttach` can
change — and when every expected record matches some stored record the
collection does not grow, so every freshly generated provisional UUID is
discarded. -/
theorem updateLinks_stable_identity (links : List ClXdpAttachInfoState)
    (exps : List (List ClXdpAttachInfoState)) :
    (∀ (i : Nat) (a : ClXdpAttachInfoState), links[i]? = some a →
      ∃ r, (updateLinks links exps false)[i]? = some r ∧
        r.UUID = a.UUID ∧ r.LinkId = a.LinkId ∧ r.LinkStatus = a.LinkStatus ∧
        r.InterfaceName = a.InterfaceName ∧ r.NetnsPath = a.NetnsPath ∧
        r.Priority = a.Priority ∧ r.ProceedOn = a.ProceedOn) ∧
    ((∀ e ∈ exps.flatten, ∃ a ∈ links, xdpLinksMatch a e = true) →
      (updateLinks links exps false).length = links.length) := by
  constructor
  · intro i a ha
    rw [updateLinks_eq_foldl_join]
    have hra : (links.map (·.setShouldAttach false))[i]? = some (a.setShouldAttach false) := by
      rw [List.getElem?_map, ha, Option.map]
    obtain ⟨b, hb, _⟩ := foldl_updateLinksStep_frame exps.flatten _ hra
    exact ⟨a.setShouldAttach b, by simpa using hb, rfl, rfl, rfl, rfl, rfl, rfl, rfl⟩
  · intro hall
    rw [updateLinks_eq_foldl_join]
    rw [foldl_updateLinksStep_nogrow]
    · simp
    · intro e he
      obtain ⟨a, ha, ham⟩ := hall e he
      exact ⟨a.setShouldAttach false, List.mem_map_of_mem _ ha, by simpa using ham⟩

/-- Witness for C7: one stored record, re-expanded with a fresh UUID; no
new entry is appended. -/
theorem updateLinks_stable_identity_witness :
    (∀ e ∈ ([[{ ShouldAttach := true, UUID := "provisional2", LinkId := none,
                LinkStatus := .notAttached, InterfaceName := "eth7", NetnsPath := "",
                Priority := 3, ProceedOn := some [] }]] :
        List (List ClXdpAttachInfoState)).flatten,
      ∃ a ∈ [({ ShouldAttach := false, UUID := "stored2", LinkId := some 4,
                LinkStatus := .attachSuccess, InterfaceName := "eth7", NetnsPath := "",
                Priority := 3, ProceedOn := some [] } : ClXdpAttachInfoState)],
        xdpLinksMatch a e = true) ∧
    (updateLinks
      [{ ShouldAttach := false, UUID := "stored2", LinkId := some 4,
         LinkStatus := .attachSuccess, InterfaceName := "eth7", NetnsPath := "",
         Priority := 3, ProceedOn := some [] }]
      [[{ ShouldAttach := true, UUID := "provisional2", LinkId := none,
          LinkStatus := .notAttached, InterfaceName := "eth7", NetnsPath := "",
          Priority := 3, ProceedOn := some [] }]] false).length =
      ([{ ShouldAttach := false, UUID := "stored2", LinkId := some 4,
          LinkStatus := .attachSuccess, InterfaceName := "eth7", NetnsPath := "",
          Priority := 3, ProceedOn := some [] }] : List ClXdpAttachInfoState).length :=
  ⟨by decide, (updateLinks_stable_identity _ _).2 (by decide)⟩

/-- C2: `processLinks` reconciles every record independently (an error on
one record never aborts the others), removes exactly the records marked
for removal, returns the last error encountered alongside (not instead
of) the updated collection, and recomputes the aggregate status from that
updated collection. -/
theorem processLinks_partial_failure (rpc : Rpc) (links : List ClXdpAttachInfoState) :
    (processLinks rpc links).links =
      ((links.map (reconcileBpfLink rpc)).filter (fun r => !r.remove)).map (·.link) ∧
    (processLinks rpc links).lastErr =
      ((links.map (reconcileBpfLink rpc)).filterMap (·.err)).getLast? ∧
    (processLinks rpc links).status =
      updateProgramAttachStatus ((processLinks rpc links).links) := by
  rw [processLinks_eq]
  exact ⟨rfl, rfl, rfl⟩

/-- Witness for C2: one failing attach among two records; evaluated via
the characterisation. -/
theorem processLinks_partial_failure_witness :
    (processLinks
      { attach := fun l => if l.InterfaceName == "bad" then .error ("boom") else .ok 1,
        detach := fun _ => .ok () }
      [{ ShouldAttach := true, UUID := "g", LinkId := none,
         LinkStatus := .notAttached, InterfaceName := "eth0", NetnsPath := "",
         Priority := 0, ProceedOn := none },
       { ShouldAttach := true, UUID := "b", LinkId := none,
         LinkStatus := .notAttached, InterfaceName := "bad", NetnsPath := "",
         Priority := 0, ProceedOn := none }]).lastErr =
      ((([{ ShouldAttach := true, UUID := "g", LinkId := none,
            LinkStatus := .notAttached, InterfaceName := "eth0", NetnsPath := "",
            Priority := 0, ProceedOn := none },
          { ShouldAttach := true, UUID := "b", LinkId := none,
            LinkStatus := .notAttached, InterfaceName := "bad", NetnsPath := "",
            Priority := 0, ProceedOn := none }] : List ClXdpAttachInfoState).map
        (reconcileBpfLink
          { attach := fun l => if l.InterfaceName == "bad" then .error ("boom") else .ok 1,
            detach := fun _ => .ok () })).filterMap
        (fun (r : LinkReconcileResult) => r.err)).getLast? :=
  (processLinks_partial_failure _ _).2.1

/-- After an error-free reconcile pass, every surviving record wants
attachment and has a link id, every record is identity-matched by some
expected record and vice versa, and no two surviving records share an
identity (up to the one-true-per-identity discipline of `findLink`). -/
theorem reconcilePass_noerr_facts (rpc : Rpc) (links : List ClXdpAttachInfoState)
    (exps : List (List ClXdpAttachInfoState))
    (hexp : ∀ e ∈ exps.flatten, e.ShouldAttach = true)
    (herr : (reconcilePass rpc links exps).lastErr = none) :
    (∀ x ∈ (reconcilePass rpc links exps).links,
      x.ShouldAttach = true ∧ x.LinkId.isSome = true ∧
        ∃ e ∈ exps.flatten, xdpLinksMatch x e = true) ∧
    (∀ e ∈ exps.flatten, ∃ x ∈ (reconcilePass rpc links exps).links,
      xdpLinksMatch x e = true) ∧
    (reconcilePass rpc links exps).links.Pairwise
      (fun x y => xdpLinksMatch x y = true → y.ShouldAttach = false) := by
  have hdef : reconcilePass rpc links exps =
      processLinks rpc (updateLinks links exps false) := rfl
  rw [hdef, processLinks_eq] at herr ⊢
  simp only at herr ⊢
  have herr' : ∀ r ∈ (updateLinks links exps false).map (reconcileBpfLink rpc),
      r.err = none := by
    rw [List.getLast?_eq_none_iff, List.filterMap_eq_nil_iff] at herr
    intro r hr
    exact herr r hr
  have hufold : updateLinks links exps false =
      exps.flatten.foldl updateLinksStep (links.map (·.setShouldAttach false)) :=
    updateLinks_eq_foldl_join links exps
  refine ⟨?_, ?_, ?_⟩
  · intro x hx
    obtain ⟨r, hrf, rfl⟩ := List.mem_map.mp hx
    have hrmem : r ∈ (updateLinks links exps false).map (reconcileBpfLink rpc) :=
      (List.mem_filter.mp hrf).1
    have hrrem : r.remove = false := by
      have := (List.mem_filter.mp hrf).2
      simpa using this
    obtain ⟨l, hl, rfl⟩ := List.mem_map.mp hrmem
    obtain ⟨hSA, hid⟩ := reconcileBpfLink_kept rpc hrrem (herr' _ hrmem)
    refine ⟨hSA, hid, ?_⟩
    have hlSA : l.ShouldAttach = true := by
      rw [← reconcileBpfLink_link_ShouldAttach rpc l]
      exact hSA
    have hl' : l ∈ exps.flatten.foldl updateLinksStep (links.map (·.setShouldAttach false)) := by
      rw [← hufold]
      exact hl
    rcases foldl_updateLinksStep_true_matched exps.flatten _ l hl' hlSA with
      ⟨e, he, hem⟩ | ⟨a, ha, haSA, _⟩
    · exact ⟨e, he, by rw [reconcileBpfLink_match_left]; exact hem⟩
    · obtain ⟨y, _, rfl⟩ := List.mem_map.mp ha
      exact absurd haSA (by simp)
  · intro e he
    have hmatched := foldl_updateLinksStep_matched exps.flatten
      (links.map (·.setShouldAttach false)) hexp e he
    obtain ⟨r₀, hr₀, hr₀m, hr₀SA⟩ := hmatched
    have hr₀u : r₀ ∈ updateLinks links exps false := by
      rw [hufold]
      exact hr₀
    refine ⟨(reconcileBpfLink rpc r₀).link, ?_, ?_⟩
    · refine List.mem_map_of_mem _ ?_
      rw [List.mem_filter]
      refine ⟨List.mem_map_of_mem _ hr₀u, ?_⟩
      rw [reconcileBpfLink_remove_of_shouldAttach rpc hr₀SA]
      rfl
    · rw [reconcileBpfLink_match_left]
      exact hr₀m
  · have hnodup : NoDupTrue (updateLinks links exps false) := by
      rw [hufold]
      exact noDupTrue_foldl exps.flatten _ (noDupTrue_reset links)
    have hpu : (updateLinks links exps false).Pairwise
        (fun a b => xdpLinksMatch a b = true → b.ShouldAttach = false) := by
      rw [List.pairwise_iff_getElem]
      intro i j hi hj hij
      intro hm
      exact hnodup i j _ _ hij (List.getElem?_eq_getElem hi)
        (List.getElem?_eq_getElem hj) hm
    have hpR := hpu.map (reconcileBpfLink rpc)
      (S := fun r s => xdpLinksMatch r.link s.link = true → s.link.ShouldAttach = false)
      (by
        intro a b hab hm
        rw [reconcileBpfLink_match_left, reconcileBpfLink_match_right] at hm
        rw [reconcileBpfLink_link_ShouldAttach]
        exact hab hm)
    have hpF := hpR.sublist
      (List.filter_sublist (p := fun r => !r.remove)
        ((updateLinks links exps false).map (reconcileBpfLink rpc)))
    exact hpF.map (fun r : LinkReconcileResult => r.link)
      (S := fun x y => xdpLinksMatch x y = true → y.ShouldAttach = false)
      (fun _ _ h => h)

/-- C5: for every PerNodeRecord link collection produced by a reconcile
pass that completed without error, running the pass again with the same
expansion results (same desired spec, node, interfaces, namespaces and
containers) returns the same AttachRecord collection, the aggregate
Success status, no error, and — crucially — issues no attach or detach
RPC call during the second run. -/
theorem reconcilePass_idempotent (rpc : Rpc) (links : List ClXdpAttachInfoState)
    (exps : List (List ClXdpAttachInfoState))
    (hexp : ∀ e ∈ exps.flatten, e.ShouldAttach = true)
    (herr : (reconcilePass rpc links exps).lastErr = none) :
    reconcilePass rpc (reconcilePass rpc links exps).links exps =
      { links := (reconcilePass rpc links exps).links,
        status := .progAttachSuccess, lastErr := none, calls := [] } := by
  obtain ⟨hA, hB, hP⟩ := reconcilePass_noerr_facts rpc links exps hexp herr
  set l₁ := (reconcilePass rpc links exps).links with hl₁def
  -- the second update pass leaves the collection unchanged
  have hu₂ : updateLinks l₁ exps false = l₁ := by
    rw [updateLinks_eq_foldl_join]
    have hlen : (exps.flatten.foldl updateLinksStep
        (l₁.map (·.setShouldAttach false))).length = l₁.length := by
      rw [foldl_updateLinksStep_nogrow]
      · simp
      · intro e he
        obtain ⟨x, hx, hxm⟩ := hB e he
        exact ⟨x.setShouldAttach false, List.mem_map_of_mem _ hx, by simpa using hxm⟩
    apply List.ext_getElem?
    intro i
    by_cases hi : i < l₁.length
    · have hx : l₁[i]? = some l₁[i] := List.getElem?_eq_getElem hi
      set x := l₁[i] with hxdef
      have hrx : (l₁.map (·.setShouldAttach false))[i]? =
          some (x.setShouldAttach false) := by
        rw [List.getElem?_map, hx, Option.map]
      obtain ⟨b, hb, _⟩ := foldl_updateLinksStep_frame exps.flatten _ hrx
      simp only [setShouldAttach_setShouldAttach] at hb
      have hxl₁ : x ∈ l₁ := List.getElem?_mem hx
      obtain ⟨hxSA, _, e, he, hxe⟩ := hA x hxl₁
      -- the matched-true record for e sits at the same index i
      obtain ⟨r, hr, hrm, hrSA⟩ :=
        foldl_updateLinksStep_matched exps.flatten (l₁.map (·.setShouldAttach false)) hexp e he
      obtain ⟨q, hq⟩ := List.getElem?_of_mem hr
      have hqlt : q < l₁.length := by
        by_contra hge
        rw [List.getElem?_eq_none (by rw [hlen]; omega)] at hq
        exact Option.noConfusion hq
      have hy : l₁[q]? = some l₁[q] := List.getElem?_eq_getElem hqlt
      set y := l₁[q] with hydef
      have hry : (l₁.map (·.setShouldAttach false))[q]? =
          some (y.setShouldAttach false) := by
        rw [List.getElem?_map, hy, Option.map]
      obtain ⟨bq, hbq, _⟩ := foldl_updateLinksStep_frame exps.flatten _ hry
      simp only [setShouldAttach_setShouldAttach] at hbq
      rw [hq] at hbq
      have hryq : r = y.setShouldAttach bq := Option.some.inj hbq
      have hySA : y.ShouldAttach = true := (hA y (List.getElem?_mem hy)).1
      have hbq1 : bq = true := by
        have : r.ShouldAttach = bq := by rw [hryq]; rfl
        rw [hrSA] at this
        exact this.symm
      have hrey : r = y := by
        rw [hryq, hbq1, setShouldAttach_eq_self y true hySA]
      -- identity-match forces q = i
      have hmyx : xdpLinksMatch y x = true := by
        rw [← hrey]
        exact xdpLinksMatch_trans hrm (by rw [xdpLinksMatch_comm]; exact hxe)
      have hqi : q = i := by
        rcases Nat.lt_trichotomy q i with hlt | heq | hgt
        · have := (List.pairwise_iff_getElem.mp hP) q i hqlt hi hlt
          rw [← hydef, ← hxdef] at this
          exact absurd (this hmyx) (by rw [hxSA]; simp)
        · exact heq
        · have := (List.pairwise_iff_getElem.mp hP) i q hi hqlt hgt
          rw [← hydef, ← hxdef] at this
          have hmxy : xdpLinksMatch x y = true := by
            rw [xdpLinksMatch_comm]; exact hmyx
          exact absurd (this hmxy) (by rw [hySA]; simp)
      -- hence the frame flag at i is true and the entry equals x
      rw [hqi] at hq hy
      have hxy : y = x := Option.some.inj (hy.symm.trans hx)
      rw [hq] at hb
      have hxr : x.setShouldAttach b = r := (Option.some.inj hb).symm
      rw [hrey, hxy] at hxr
      rw [hq, hrey, hxy, hx]
    · have hi' : l₁.length ≤ i := by omega
      rw [List.getElem?_eq_none (by rw [hlen]; omega), List.getElem?_eq_none hi']
  -- the second process pass touches nothing
  have hattached : ∀ x ∈ l₁, reconcileBpfLink rpc x =
      { link := x, remove := false, err := none, calls := [] } := fun x hx =>
    reconcileBpfLink_attached rpc (hA x hx).1 (hA x hx).2.1
  have hdef2 : reconcilePass rpc l₁ exps = processLinks rpc (updateLinks l₁ exps false) :=
    rfl
  rw [hdef2, hu₂, processLinks_eq]
  have hmap : l₁.map (reconcileBpfLink rpc) =
      l₁.map (fun x =>
        ({ link := x, remove := false, err := none, calls := [] } : LinkReconcileResult)) :=
    List.map_congr_left hattached
  rw [hmap]
  have hfilter : (l₁.map (fun x =>
      ({ link := x, remove := false, err := none, calls := [] } : LinkReconcileResult))).filter
        (fun r => !r.remove) =
      l₁.map (fun x =>
        ({ link := x, remove := false, err := none, calls := [] } : LinkReconcileResult)) := by
    rw [List.filter_eq_self]
    intro r hr
    obtain ⟨x, _, rfl⟩ := List.mem_map.mp hr
    rfl
  rw [hfilter]
  have hlinks : (l₁.map (fun x =>
      ({ link := x, remove := false, err := none, calls := [] } : LinkReconcileResult))).map
        (fun r => r.link) = l₁ := by
    rw [List.map_map]
    exact List.map_id'' (fun x => rfl) l₁
  simp only [ProcessResult.mk.injEq]
  refine ⟨hlinks, ?_, ?_, ?_⟩
  · rw [hlinks, updateProgramAttachStatus_eq_success_iff]
    intro l hl
    obtain ⟨hSA, hid, _⟩ := hA l hl
    rw [hSA, hid]
  · rw [List.filterMap_map]
    have hnil : l₁.filterMap ((fun r : LinkReconcileResult => r.err) ∘ fun x =>
        ({ link := x, remove := false, err := none, calls := [] } : LinkReconcileResult)) = [] :=
      List.filterMap_eq_nil_iff.mpr (fun a _ => rfl)
    rw [hnil]
    rfl
  · rw [List.map_map]
    apply List.flatten_eq_nil_iff.mpr
    intro x hx
    obtain ⟨y, _, rfl⟩ := List.mem_map.mp hx
    rfl

/-- Witness for C5: one expected link, an RPC service whose attach always
succeeds, an initially empty collection; the second pass returns the
first pass's collection untouched with no calls. -/
theorem reconcilePass_idempotent_witness :
    (∀ e ∈ ([[{ ShouldAttach := true, UUID := "w", LinkId := none,
                LinkStatus := .notAttached, InterfaceName := "eth0", NetnsPath := "",
                Priority := 0, ProceedOn := none }]] :
        List (List ClXdpAttachInfoState)).flatten, e.ShouldAttach = true) ∧
    (reconcilePass { attach := fun _ => .ok 42, detach := fun _ => .ok () } []
      [[{ ShouldAttach := true, UUID := "w", LinkId := none,
          LinkStatus := .notAttached, InterfaceName := "eth0", NetnsPath := "",
          Priority := 0, ProceedOn := none }]]).lastErr = none ∧
    reconcilePass { attach := fun _ => .ok 42, detach := fun _ => .ok () }
      (reconcilePass { attach := fun _ => .ok 42, detach := fun _ => .ok () } []
        [[{ ShouldAttach := true, UUID := "w", LinkId := none,
            LinkStatus := .notAttached, InterfaceName := "eth0", NetnsPath := "",
            Priority := 0, ProceedOn := none }]]).links
      [[{ ShouldAttach := true, UUID := "w", LinkId := none,
          LinkStatus := .notAttached, InterfaceName := "eth0", NetnsPath := "",
          Priority := 0, ProceedOn := none }]] =
      { links := (reconcilePass { attach := fun _ => .ok 42, detach := fun _ => .ok () } []
          [[{ ShouldAttach := true, UUID := "w", LinkId := none,
              LinkStatus := .notAttached, InterfaceName := "eth0", NetnsPath := "",
              Priority := 0, ProceedOn := none }]]).links,
        status := .progAttachSuccess, lastErr := none, calls := [] } :=
  ⟨by decide, rfl,
   reconcilePass_idempotent _ _ _ (by decide) rfl⟩

end Bpfman
